import Mathlib

/-!
Verification of the FastCommit diff-collection / prompt pipeline.

This file shallowly embeds the relevant parts of the repository:
`src/providers/GitService.ts` (change enumeration, diff collection,
size-guarded context building, file-summary synthesis),
`src/utils/exclusions.ts` (lock-file exclusion patterns),
`src/utils/path.ts` (path normalization helpers),
`src/prompts/commit-template.ts` (prompt rendering and commit-message
extraction) and `src/providers/CommitMessageProvider.ts` (previous-message
plumbing).

The `git` subprocess is modelled as an oracle: each invocation outcome is an
`Except String String` value (error = non-zero exit / missing binary, ok =
captured stdout), passed in explicitly.  JavaScript string primitives
(`trim`, `split`, regex `replace` as used by the code) are modelled over
`List Char` / `String`.
-/

namespace FastCommit

/-! ### Characters that the hygiene of this file forces us to name -/

/-- The backtick character. -/
def btChar : Char := Char.ofNat 96

/-- Opening curly brace. -/
def lbrChar : Char := Char.ofNat 123

/-- Closing curly brace. -/
def rbrChar : Char := Char.ofNat 125

/-- Single-quote character. -/
def sqChar : Char := Char.ofNat 39

/-! ### JavaScript string primitives -/

/-- Whitespace as recognized by JavaScript `trim` / regex `\s`
(ASCII part; the code only ever meets ASCII whitespace). -/
def jsWS (c : Char) : Bool :=
  c = ' ' || c = '\t' || c = '\n' || c = '\r' || c = Char.ofNat 11 || c = Char.ofNat 12

/-- Drop trailing characters satisfying `p` (helper for `trim`). -/
def dropTail (p : Char → Bool) (l : List Char) : List Char :=
  (l.reverse.dropWhile p).reverse

/-- JavaScript `String.prototype.trim` over a character list. -/
def jsTrimL (l : List Char) : List Char :=
  dropTail jsWS (l.dropWhile jsWS)

/-- JavaScript `String.prototype.trim`. -/
def jsTrimS (s : String) : String :=
  String.mk (jsTrimL s.data)

/-- JavaScript `String.prototype.split` with a one-character separator,
over a character list (keeps empty fields, like JavaScript). -/
def splitCh (sep : Char) : List Char → List (List Char)
  | [] => [[]]
  | c :: rest =>
    if c = sep then [] :: splitCh sep rest
    else
      match splitCh sep rest with
      | acc :: more => (c :: acc) :: more
      | [] => [[c]]

/-- JavaScript `String.prototype.split` with a one-character separator. -/
def jsSplit (sep : Char) (s : String) : List String :=
  (splitCh sep s.data).map String.mk

/-- Is `c` the last character of `s`? -/
def lastIs (c : Char) (s : String) : Bool :=
  s.data.getLast? == some c

/-- JavaScript `String.prototype.toLowerCase` (ASCII part; the code only
lowercases the ASCII status labels). -/
def toLowerJS (s : String) : String :=
  String.mk (s.data.map Char.toLower)

/-! ### Node path helpers (as used by the code on normalized POSIX inputs)

`path.join(root, rel)` and `path.relative(root, abs)` are Node library
functions; the code only feeds them normalized POSIX paths (workspace root
without trailing slash, repository-relative file names from `git`), so we
embed their behaviour on such inputs. -/

/-- Node `path.join(a, b)` for normalized POSIX segments. -/
def pathJoin (a b : String) : String :=
  if a = "" then b
  else if lastIs '/' a then a ++ b
  else a ++ "/" ++ b

/-- Split a POSIX path into its `/`-separated segments. -/
def pathSegs (p : String) : List String :=
  (jsSplit '/' p).filter (· ≠ "")

/-- Length of the common leading run of two segment lists. -/
def commonLeadLen : List String → List String → Nat
  | a :: as, b :: bs => if a = b then commonLeadLen as bs + 1 else 0
  | _, _ => 0

/-- Node `path.relative(from, to)` for absolute normalized POSIX inputs. -/
def pathRelative (fromPath toPath : String) : String :=
  let f := pathSegs fromPath
  let t := pathSegs toPath
  let k := commonLeadLen f t
  String.intercalate "/" (List.replicate (f.length - k) ".." ++ t.drop k)

/-- `normalizePath` from `src/utils/path.ts`: `path.normalize` (identity on
the already-normalized inputs the code produces) followed by stripping one
trailing slash or backslash. -/
def normalizePath (p : String) : String :=
  if p.length > 1 && (lastIs '/' p || lastIs '\\' p) then
    String.mk p.data.dropLast
  else p

/-! ### Change Enumerator (`GitService.gatherChanges`, `getChangeStatusFromCode`) -/

/-- One changed file, as produced by `gatherChanges`. -/
structure GitChange where
  filePath : String
  status : String
deriving DecidableEq, Repr

/-- `GitService.getChangeStatusFromCode`: the status-code switch. -/
def getChangeStatusFromCode (code : String) : String :=
  if code = "M" then "Modified"
  else if code = "A" then "Added"
  else if code = "D" then "Deleted"
  else if code = "R" then "Renamed"
  else if code = "C" then "Copied"
  else if code = "U" then "Updated"
  else if code = "?" then "Untracked"
  else "Unknown"

/-- One iteration of the `gatherChanges` parsing loop: lines shorter than two
characters are skipped (`continue`), otherwise the first character (trimmed)
is the status code and the rest (trimmed) is the path, joined onto the
workspace root. -/
def parseStatusLine (root : String) (line : String) : Option GitChange :=
  if line.length < 2 then none
  else
    let statusCode := jsTrimS (line.take 1)
    let filePath := jsTrimS (line.drop 1)
    some { filePath := pathJoin root filePath,
           status := getChangeStatusFromCode statusCode }

/-- `GitService.gatherChanges`: parses `git diff --name-status [--cached]`
output.  The subprocess outcome is the `statusResult` oracle; any failure is
caught and yields the empty list. -/
def gatherChanges (root : String) (statusResult : Except String String) :
    List GitChange :=
  match statusResult with
  | .error _ => []
  | .ok statusOutput =>
    if jsTrimS statusOutput = "" then []
    else
      let lines := (jsSplit '\n' statusOutput).filter (fun l => jsTrimS l ≠ "")
      lines.filterMap (parseStatusLine root)

/-! ### Exclusion Filter (`src/utils/exclusions.ts`)

The code compiles the built-in patterns with the `ignore` package:
each lock-file name `f` becomes the recursive glob pattern matching `f` as a
whole path segment at any depth, and each build/cache directory pattern
matches its segment sequence at any non-final position.  We embed that
matching directly over path segments. -/

/-- The built-in lock-file name list (verbatim from the source). -/
def lockFiles : List String :=
  ["package-lock.json", "npm-shrinkwrap.json", "yarn.lock", "pnpm-lock.yaml",
   "bun.lockb", ".yarnrc.yml", ".pnp.js", ".pnp.cjs",
   "Pipfile.lock", "poetry.lock", "pdm.lock", ".pdm-lock.toml",
   "Gemfile.lock", "composer.lock", "gradle.lockfile", "dependency-lock.json",
   "packages.lock.json", "paket.lock", "project.assets.json", "Cargo.lock",
   "go.sum", "Gopkg.lock", "Package.resolved", "Podfile.lock",
   "Cartfile.resolved", "pubspec.lock", "mix.lock", "stack.yaml.lock",
   "shard.lock", "Manifest.toml", "renv.lock", "conan.lock",
   ".terraform.lock.hcl", "flake.lock", "deno.lock"]

/-- The build/cache directory patterns (segment sequences of the globs
added by `createLockFileIgnoreInstance`, verbatim from the source). -/
def dirPatterns : List (List String) :=
  [["node_modules"], [".yarn", "cache"], [".yarn", "unplugged"],
   ["target", "debug"], ["target", "release"], ["build"], ["dist"],
   ["__pycache__"], [".pytest_cache"], ["vendor"]]

/-- Does `pat` match the leading segments of `segs`, with at least one
segment left over (a directory glob ending in a recursive wildcard needs
content below the matched directory)? -/
def dirSeqAt (pat segs : List String) : Bool :=
  match pat, segs with
  | [], rest => !rest.isEmpty
  | p :: ps, s :: ss => p == s && dirSeqAt ps ss
  | _ :: _, [] => false

/-- Does the directory glob `pat` match anywhere in `segs`? -/
def dirMatch (pat : List String) : List String → Bool
  | [] => false
  | s :: rest => dirSeqAt pat (s :: rest) || dirMatch pat rest

/-- `shouldExcludeLockFile` from `src/utils/exclusions.ts`: the path is
normalized, then matched against the compiled built-in patterns.  A
lock-file glob matches iff the name occurs as a whole path segment
(final segment, or a directory whose contents are then ignored). -/
def shouldExcludeLockFile (filePath : String) : Bool :=
  let segs := pathSegs (normalizePath filePath)
  lockFiles.any (fun f => segs.contains f) ||
    dirPatterns.any (fun pat => dirMatch pat segs)

/-! ### Diff Collector (`GitService.getDiffForChanges`)

The per-file diff subprocess is the `fileDiff` oracle.  The collector also
returns the list of percentages reported to the progress callback (empty
when no callback is supplied), and stops on the first uncaught subprocess
error (which the outer catch then converts to an empty diff). -/

/-- The file listing: `git diff --name-only` output split into lines,
trimmed, with empty lines dropped. -/
def listFiles (out : String) : List String :=
  ((jsSplit '\n' out).map jsTrimS).filter (fun l => l.length > 0)

/-- The per-file loop of `getDiffForChanges`.  `total` is the file count,
`processed` the number of files handled so far.  Returns the accumulated
per-file diffs (or the first error) together with the emitted progress
percentages. -/
def diffLoop (shouldInclude : String → Bool)
    (fileDiff : String → Except String String) (hasCallback : Bool)
    (total : Nat) : Nat → List String → Except String (List String) × List ℚ
  | _, [] => (.ok [], [])
  | processed, f :: rest =>
    let step : Except String (List String) :=
      if shouldInclude f then
        (fileDiff f).map (fun d =>
          let t := jsTrimS d
          if t ≠ "" then [t] else [])
      else .ok []
    match step with
    | .error e => (.error e, [])
    | .ok ds =>
      let ev : List ℚ :=
        if hasCallback ∧ 0 < total then
          [((processed + 1 : ℚ) / (total : ℚ)) * 100]
        else []
      let r := diffLoop shouldInclude fileDiff hasCallback total (processed + 1) rest
      (r.1.map (fun l => ds ++ l), ev ++ r.2)

/-- `getDiffForChanges` on an already-listed file sequence: run the loop and
join the collected diffs with a single newline; a loop error is caught and
yields the empty string (keeping the progress reported so far). -/
def getDiffForChangesFiles (shouldInclude : String → Bool)
    (fileDiff : String → Except String String) (hasCallback : Bool)
    (files : List String) : String × List ℚ :=
  match diffLoop shouldInclude fileDiff hasCallback files.length 0 files with
  | (.ok diffs, evs) => (String.intercalate "\n" diffs, evs)
  | (.error _, evs) => ("", evs)

/-- `GitService.getDiffForChanges`: list the changed files for the scope
(the `listing` oracle), process each in order, catch every failure. -/
def getDiffForChanges (shouldInclude : String → Bool)
    (fileDiff : String → Except String String) (hasCallback : Bool)
    (listing : Except String String) : String × List ℚ :=
  match listing with
  | .error _ => ("", [])
  | .ok out => getDiffForChangesFiles shouldInclude fileDiff hasCallback (listFiles out)

/-! ### File summary synthesis (`GitService.createFilesSummary`) -/

/-- The five grouping buckets of `createFilesSummary`. -/
inductive FileBucket
  | added | modified | deleted | renamed | other
deriving DecidableEq, Repr

/-- The `switch (change.status.toLowerCase())` classification. -/
def classifyStatus (status : String) : FileBucket :=
  let s := toLowerJS status
  if s = "added" ∨ s = "a" then .added
  else if s = "modified" ∨ s = "m" then .modified
  else if s = "deleted" ∨ s = "d" then .deleted
  else if s = "renamed" ∨ s = "r" then .renamed
  else .other

/-- The accumulator of the `changes.forEach` grouping loop. -/
structure Buckets where
  added : List String
  modified : List String
  deleted : List String
  renamed : List String
  other : List String
deriving Repr

/-- The empty accumulator. -/
def Buckets.empty : Buckets := ⟨[], [], [], [], []⟩

/-- What the loop pushes for one change: the path relative to the workspace
root, with the raw status label appended for the `other` bucket. -/
def bucketEntry (root : String) (c : GitChange) : String :=
  let relativePath := pathRelative root c.filePath
  match classifyStatus c.status with
  | .other => relativePath ++ " (" ++ c.status ++ ")"
  | _ => relativePath

/-- One iteration of the `changes.forEach` grouping loop. -/
def pushChange (root : String) (b : Buckets) (c : GitChange) : Buckets :=
  match classifyStatus c.status with
  | .added => { b with added := b.added ++ [bucketEntry root c] }
  | .modified => { b with modified := b.modified ++ [bucketEntry root c] }
  | .deleted => { b with deleted := b.deleted ++ [bucketEntry root c] }
  | .renamed => { b with renamed := b.renamed ++ [bucketEntry root c] }
  | .other => { b with other := b.other ++ [bucketEntry root c] }

/-- Rendering of one bucket: skipped when empty, otherwise a bold header
with the count followed by one `- file` bullet per entry and a blank line.
The bullet accumulation mirrors the source's `forEach` string appends. -/
def renderBucket (title : String) (files : List String) : String :=
  if files.length > 0 then
    "**" ++ title ++ " (" ++ toString files.length ++ "):**\n" ++
      files.foldl (fun s f => s ++ "- " ++ f ++ "\n") "" ++ "\n"
  else ""

/-- The final total line of the summary. -/
def totalLine (n : Nat) : String :=
  "**Total: " ++ toString n ++ " file" ++ (if n = 1 then "" else "s") ++ " changed**"

/-- `GitService.createFilesSummary`. -/
def createFilesSummary (root : String) (changes : List GitChange) : String :=
  if changes.length = 0 then "No changes detected."
  else
    let b := changes.foldl (pushChange root) Buckets.empty
    renderBucket "Modified Files" b.modified ++
      renderBucket "Added Files" b.added ++
      renderBucket "Deleted Files" b.deleted ++
      renderBucket "Renamed Files" b.renamed ++
      renderBucket "Other Changes" b.other ++
      totalLine changes.length

/-! ### Size-Guarded Context Builder (`GitService.getCommitContext`) -/

/-- Maximum size for diff content (approximately 10,000 tokens). -/
def MAX_DIFF_SIZE : Nat := 40000

/-- Subprocess outcomes feeding one `getCommitContext` call: the diff
collector result (its catch branch models a failure of the awaited call),
the `--stat` summary, the current branch and the recent commits. -/
structure CtxEnv where
  diffResult : Except String String
  summaryResult : Except String String
  branchResult : Except String String
  commitsResult : Except String String

/-- The `Staged` / `Unstaged` label. -/
def changeTypeLabel (staged : Bool) : String :=
  if staged then "Staged" else "Unstaged"

/-- The diff section of the context: the literal diff fenced as a full diff
when it fits, the synthesized file summary labeled truncated when it is too
large, and the summary labeled unavailable when the diff fetch failed. -/
def diffSectionOf (root : String) (changes : List GitChange) (staged : Bool)
    (diffResult : Except String String) : String :=
  let changeType := changeTypeLabel staged
  match diffResult with
  | .ok diff =>
    if diff.length > MAX_DIFF_SIZE then
      "### " ++ changeType ++ " Changes Summary (Diff truncated due to size)\n\n" ++
        createFilesSummary root changes ++ "\n\n"
    else
      "### Full Diff of " ++ changeType ++ " Changes\n```diff\n" ++ diff ++ "\n```\n\n"
  | .error _ =>
    "### " ++ changeType ++ " Changes Summary (Diff unavailable)\n\n" ++
      createFilesSummary root changes ++ "\n\n"

/-- The statistical-summary section. -/
def statSectionOf (summaryResult : Except String String) : String :=
  match summaryResult with
  | .ok summary => "### Statistical Summary\n```\n" ++ summary ++ "\n```\n\n"
  | .error _ => "### Statistical Summary\n```\n(No summary available)\n```\n\n"

/-- The current-branch line (skipped on failure or empty output). -/
def branchSectionOf (branchResult : Except String String) : String :=
  match branchResult with
  | .ok currentBranch =>
    if currentBranch ≠ "" then
      "**Current branch:** " ++ String.mk [btChar] ++ jsTrimS currentBranch ++
        String.mk [btChar] ++ "\n\n"
    else ""
  | .error _ => ""

/-- The recent-commits block (skipped on failure or empty output). -/
def commitsSectionOf (commitsResult : Except String String) : String :=
  match commitsResult with
  | .ok recentCommits =>
    if recentCommits ≠ "" then
      "**Recent commits:**\n```\n" ++ recentCommits ++ "\n```\n"
    else ""
  | .error _ => ""

/-- Everything `getCommitContext` appends after the diff section. -/
def contextTailOf (env : CtxEnv) : String :=
  statSectionOf env.summaryResult ++ "### Repository Context\n\n" ++
    branchSectionOf env.branchResult ++ commitsSectionOf env.commitsResult

/-- `GitService.getCommitContext`.  (The outer catch of the source cannot
fire: every inner operation is individually caught.) -/
def getCommitContext (root : String) (changes : List GitChange) (staged : Bool)
    (env : CtxEnv) : String :=
  "## Git Context for Commit Message Generation\n\n" ++
    diffSectionOf root changes staged env.diffResult ++ contextTailOf env

/-! ### Prompt Renderer (`src/prompts/commit-template.ts`)

`createPrompt` performs one left-to-right pass of the global regex
replacement of placeholder tokens: a dollar sign followed by an opening
brace opens a token, the lazily-matched key runs to the first closing brace
and may not contain a newline; on a closing brace the keyed parameter value
(empty for unknown or undefined fields) is spliced in without rescanning; a
newline or end of input aborts the token, whose characters pass through
literally. -/

/-- The parameter record of the prompt templates. -/
structure PromptParams where
  gitContext : String
  customInstructions : Option String
  previousMessage : Option String
deriving DecidableEq, Repr

/-- JavaScript truthiness of an optional string (`undefined` and the empty
string are falsy). -/
def jsTruthy : Option String → Bool
  | none => false
  | some s => s ≠ ""

/-- JavaScript `x || undefined`: collapses the empty string to `undefined`. -/
def jsOrUndefined : Option String → Option String
  | none => none
  | some s => if s = "" then none else some s

/-- The field lookup of the replacement callback: a string-typed field is
substituted literally, anything else (unknown key, undefined field) becomes
the empty string. -/
def paramLookup (params : PromptParams) (key : String) : String :=
  if key = "gitContext" then params.gitContext
  else if key = "customInstructions" then
    match params.customInstructions with
    | some s => s
    | none => ""
  else if key = "previousMessage" then
    match params.previousMessage with
    | some s => s
    | none => ""
  else ""

/-- The placeholder-substitution scan.  `none` is ordinary scanning; `some
acc` means a token opener has been consumed and `acc` holds the key
characters read so far (reversed). -/
def substGo (f : String → String) : Option (List Char) → List Char → List Char
  | none, [] => []
  | none, [c] => [c]
  | none, c :: c2 :: rest2 =>
    if c = '$' ∧ c2 = lbrChar then substGo f (some []) rest2
    else c :: substGo f none (c2 :: rest2)
  | some acc, [] => '$' :: lbrChar :: acc.reverse
  | some acc, c :: rest =>
    if c = rbrChar then (f (String.mk acc.reverse)).data ++ substGo f none rest
    else if c = '\n' then '$' :: lbrChar :: (acc.reverse ++ c :: substGo f none rest)
    else substGo f (some (c :: acc)) rest

/-- `createPrompt`: template substitution. -/
def createPrompt (template : String) (params : PromptParams) : String :=
  String.mk (substGo (paramLookup params) none template.data)

/-- Verbatim text of the standard template before its first placeholder. -/
def dSegA : String := "# Conventional Commit Message Generator\n\n## System Instructions\nYou are an expert Git commit message generator that creates conventional commit messages based on staged changes. Analyze the provided git diff output and generate appropriate conventional commit messages following the specification.\n\n"

/-- Verbatim text of the standard template between its two placeholders. -/
def dSegB : String := "\n\n## CRITICAL: Commit Message Output Rules\n- Generate ONLY a clean conventional commit message\n- DO NOT include any explanatory text, formatting, or additional commentary\n- Return ONLY the commit message itself\n\n"

/-- Verbatim text of the standard template after its last placeholder (part 1). -/
def dSegCa : String := "\n\n## Conventional Commits Format\nGenerate commit messages following this exact structure:\n```\n<type>[optional scope]: <description>\n[optional body]\n[optional footer(s)]\n```\n\n### Core Types (Required)\n- **feat**: New feature or functionality (MINOR version bump)\n- **fix**: Bug fix or error correction (PATCH version bump)\n\n### Additional Types (Extended)\n- **docs**: Documentation changes only\n"

/-- Verbatim text of the standard template after its last placeholder (part 2). -/
def dSegCb : String := "- **style**: Code style changes (whitespace, formatting, semicolons, etc.)\n- **refactor**: Code refactoring without feature changes or bug fixes\n- **perf**: Performance improvements\n- **test**: Adding or fixing tests\n- **build**: Build system or external dependency changes\n- **ci**: CI/CD configuration changes\n- **chore**: Maintenance tasks, tooling changes\n- **revert**: Reverting previous commits\n\n### Scope Guidelines\n"

/-- Verbatim text of the standard template after its last placeholder (part 3). -/
def dSegCc : String := "- Use parentheses: `feat(api):`, `fix(ui):`\n- Common scopes: `api`, `ui`, `auth`, `db`, `config`, `deps`, `docs`\n- For monorepos: package or module names\n- Keep scope concise and lowercase\n\n### Description Rules\n- Use imperative mood (\"add\" not \"added\" or \"adds\")\n- Start with lowercase letter\n- No period at the end\n- Maximum 50 characters\n- Be concise but descriptive\n\n### Body Guidelines (Optional)\n- Start one blank line after description\n"

/-- Verbatim text of the standard template after its last placeholder (part 4). -/
def dSegCd : String := "- Explain the \"what\" and \"why\", not the \"how\"\n- Wrap at 72 characters per line\n- Use for complex changes requiring explanation\n\n### Footer Guidelines (Optional)\n- Start one blank line after body\n- **Breaking Changes**: `BREAKING CHANGE: description`\n\n## Analysis Instructions\nWhen analyzing staged changes:\n1. Determine Primary Type based on the nature of changes\n2. Identify Scope from modified directories or modules\n"

/-- Verbatim text of the standard template after its last placeholder (part 5). -/
def dSegCe : String := "3. Craft Description focusing on the most significant change\n4. Determine if there are Breaking Changes\n5. For complex changes, include a detailed body explaining what and why\n6. Add appropriate footers for issue references or breaking changes\n\nFor significant changes, include a detailed body explaining the changes.\n\nReturn ONLY the commit message in the conventional format, nothing else."

/-- The text of the standard template after its last placeholder. -/
def dSegC : String := dSegCa ++ dSegCb ++ dSegCc ++ dSegCd ++ dSegCe

/-- Verbatim text of the variant directive before its placeholder. -/
def hSegA : String := "# CRITICAL INSTRUCTION: GENERATE A COMPLETELY DIFFERENT COMMIT MESSAGE\nThe user has requested a new commit message for the same changes.\nThe previous message was: \""

/-- Verbatim text of the variant directive after its placeholder. -/
def hSegB : String := "\"\nYOU MUST create a message that is COMPLETELY DIFFERENT by:\n- Using entirely different wording and phrasing\n- Focusing on different aspects of the changes\n- Using a different structure or format if appropriate\n- Possibly using a different type or scope if justifiable\nThis is the MOST IMPORTANT requirement for this task.\n\n"

/-- Verbatim text of the appended variant directive before its placeholder. -/
def fSegA : String := "\n\nFINAL REMINDER: Your message MUST be COMPLETELY DIFFERENT from the previous message: \""

/-- Verbatim text of the appended variant directive after its placeholder. -/
def fSegB : String := "\". This is a critical requirement."


/-- The standard conventional-commit template.  The source holds this text
as one template literal; it is assembled here from its verbatim pieces,
split at the two placeholders (and at line boundaries inside the long final
stretch) so that proofs never traverse thousands of characters in a single
kernel computation. -/
def DEFAULT_COMMIT_TEMPLATE : String :=
  dSegA ++ "${customInstructions}" ++ dSegB ++ "${gitContext}" ++ dSegC

/-- The prepended directive of the different-message variant (verbatim,
split at its placeholder). -/
def DM_HEADER : String := hSegA ++ "${previousMessage}" ++ hSegB

/-- The appended directive of the different-message variant (verbatim,
split at its placeholder). -/
def DM_FOOTER : String := fSegA ++ "${previousMessage}" ++ fSegB

/-- The different-message variant wraps the standard template (the source
builds it by exactly this concatenation). -/
def DIFFERENT_MESSAGE_TEMPLATE : String :=
  DM_HEADER ++ DEFAULT_COMMIT_TEMPLATE ++ DM_FOOTER

/-- The template selection of `createCommitMessagePrompt`
(`params.previousMessage ? DIFFERENT_MESSAGE_TEMPLATE : DEFAULT_COMMIT_TEMPLATE`). -/
def chooseTemplate (params : PromptParams) : String :=
  if jsTruthy params.previousMessage then DIFFERENT_MESSAGE_TEMPLATE
  else DEFAULT_COMMIT_TEMPLATE

/-- `createCommitMessagePrompt`. -/
def createCommitMessagePrompt (params : PromptParams) : String :=
  createPrompt (chooseTemplate params) params

/-! ### Response cleanup (`extractCommitMessage`)

Four regex replacements over the trimmed response:
code-fence markers (a backtick triple, optionally followed by a lowercase
tag and a newline) are deleted globally; one wrapping quote character is
stripped from each end; a leading run of hashes plus whitespace is removed;
bold markers around a lazily-matched newline-free body are removed
globally.  Each global replacement is embedded as a left-to-right scan that
does not rescan spliced output, exactly like the JavaScript engine. -/

/-- Is `c` a lowercase ASCII letter (the regex class of the fence tag)? -/
def isAZ (c : Char) : Bool := 'a' ≤ c && c ≤ 'z'

/-- The code-fence removal scan (`stripGo none`).  `some acc` means a
backtick triple has been consumed and `acc` holds the lowercase tag
characters read so far (reversed); a newline completes the tagged
alternative (all of it deleted), anything else falls back to the bare
triple match, re-emitting the tag characters literally. -/
def stripGo : Option (List Char) → List Char → List Char
  | none, [] => []
  | none, [c] => [c]
  | none, [c, c2] => [c, c2]
  | none, c :: c2 :: c3 :: rest =>
    if c = btChar ∧ c2 = btChar ∧ c3 = btChar then stripGo (some []) rest
    else c :: stripGo none (c2 :: c3 :: rest)
  | some acc, [] => acc.reverse
  | some acc, [c] =>
    if c = '\n' then [] else acc.reverse ++ [c]
  | some acc, [c, c2] =>
    if c = '\n' then stripGo none [c2]
    else if isAZ c then stripGo (some (c :: acc)) [c2]
    else acc.reverse ++ c :: stripGo none [c2]
  | some acc, c :: c2 :: c3 :: rest =>
    if c = '\n' then stripGo none (c2 :: c3 :: rest)
    else if isAZ c then stripGo (some (c :: acc)) (c2 :: c3 :: rest)
    else if c = btChar ∧ c2 = btChar ∧ c3 = btChar then acc.reverse ++ stripGo (some []) rest
    else acc.reverse ++ c :: stripGo none (c2 :: c3 :: rest)

/-- The wrapping characters stripped from the ends of the response. -/
def quoteChars : List Char := ['"', sqChar, btChar]

/-- Strip one wrapping quote character from each end. -/
def quoteStrip (l : List Char) : List Char :=
  let l1 := match l with
    | c :: rest => if quoteChars.contains c then rest else l
    | [] => []
  match l1.getLast? with
  | some c => if quoteChars.contains c then l1.dropLast else l1
  | none => l1

/-- Remove one leading run of hashes and the whitespace after it. -/
def hashStrip (l : List Char) : List Char :=
  match l with
  | c :: rest => if c = '#' then (rest.dropWhile (· = '#')).dropWhile jsWS else l
  | [] => []

/-- The bold-marker removal scan (`boldGo none`).  `some acc` means an
opening double star has been consumed; a closing double star replaces the
whole match by the captured body `acc`, a newline or the end of input
aborts the match and re-emits it literally. -/
def boldGo : Option (List Char) → List Char → List Char
  | none, [] => []
  | none, [c] => [c]
  | none, c :: c2 :: rest2 =>
    if c = '*' ∧ c2 = '*' then boldGo (some []) rest2
    else c :: boldGo none (c2 :: rest2)
  | some acc, [] => '*' :: '*' :: acc.reverse
  | some acc, [c] => '*' :: '*' :: acc.reverse ++ [c]
  | some acc, c :: c2 :: rest2 =>
    if c = '*' ∧ c2 = '*' then acc.reverse ++ boldGo none rest2
    else if c = '\n' then '*' :: '*' :: acc.reverse ++ '\n' :: boldGo none (c2 :: rest2)
    else boldGo (some (c :: acc)) (c2 :: rest2)

/-- `extractCommitMessage` from `src/prompts/commit-template.ts`. -/
def extractCommitMessage (response : String) : String :=
  let cleaned := jsTrimL response.data
  let withoutCodeBlocks := stripGo none cleaned
  let withoutQuotes := quoteStrip withoutCodeBlocks
  let withoutMarkdown := boldGo none (hashStrip withoutQuotes)
  String.mk (jsTrimL withoutMarkdown)

/-! ### Previous-message plumbing (`CommitMessageProvider.callAIForCommitMessage`) -/

/-- The prompt parameters built by `callAIForCommitMessage` from the stored
previous context/message, the freshly built context, and the configured
custom template (`getCustomTemplate()` returns a plain string, empty when
unset, collapsed by `|| undefined`). -/
def buildPromptParams (previousGitContext previousCommitMessage : Option String)
    (gitContext : String) (customTemplate : String) : PromptParams :=
  let shouldGenerateDifferent : Bool :=
    (previousGitContext == some gitContext) && previousCommitMessage.isSome
  { gitContext := gitContext,
    customInstructions := jsOrUndefined (some customTemplate),
    previousMessage :=
      if shouldGenerateDifferent then jsOrUndefined previousCommitMessage
      else none }

/-! ### Small predicates used by the theorems -/

/-- Number of leading backticks. -/
def lbt : List Char → Nat
  | [] => 0
  | c :: rest => if c = btChar then lbt rest + 1 else 0

/-- Does the character list contain three consecutive backticks? -/
def hasTriple : List Char → Bool
  | [] => false
  | c :: rest => (decide (c = btChar) && decide (2 ≤ lbt rest)) || hasTriple rest

/-- Neither end of the list is a whitespace character. -/
def noEdgeWS (l : List Char) : Bool :=
  (match l.head? with | some c => !jsWS c | none => true) &&
  (match l.getLast? with | some c => !jsWS c | none => true)

/-- The string value of an optional field (empty when absent), as the
substitution callback sees it. -/
def optStr : Option String → String
  | some s => s
  | none => ""

/-- The character sequence of a placeholder token for key `k`. -/
def tok (k : String) : List Char :=
  '$' :: lbrChar :: k.data ++ [rbrChar]

/-- No placeholder opener (dollar directly followed by an opening brace)
occurs in the list. -/
def noDB : List Char → Bool
  | [] => true
  | [_] => true
  | c :: c2 :: rest => !(c == '$' && c2 == lbrChar) && noDB (c2 :: rest)

/-- A key the lazy placeholder regex can match: no closing brace, no
newline. -/
def keyOK (l : List Char) : Bool :=
  l.all (fun c => !(c == rbrChar) && !(c == '\n'))

/-- The entries of one summary bucket, in original change order. -/
def bucketList (root : String) (changes : List GitChange) (k : FileBucket) :
    List String :=
  (changes.filter (fun c => classifyStatus c.status == k)).map (bucketEntry root)

/-! ## Helper lemmas -/

/-- The grouping loop of `createFilesSummary` accumulates, for each bucket,
exactly the entries of the changes classified into it, in original order. -/
theorem foldl_pushChange (root : String) (changes : List GitChange) :
    ∀ b : Buckets,
      changes.foldl (pushChange root) b =
        ⟨b.added ++ bucketList root changes .added,
         b.modified ++ bucketList root changes .modified,
         b.deleted ++ bucketList root changes .deleted,
         b.renamed ++ bucketList root changes .renamed,
         b.other ++ bucketList root changes .other⟩ := by
  induction changes with
  | nil => intro b; simp [bucketList]
  | cons c cs ih =>
    intro b
    simp only [List.foldl_cons]
    rw [ih]
    rcases h : classifyStatus c.status <;>
      simp [pushChange, h, bucketList, List.filter_cons]

/-- Splitting the seed out of a string-append fold. -/
theorem foldl_append_seed (l : List String) :
    ∀ s : String, l.foldl (fun r x => r ++ x) s = s ++ l.foldl (fun r x => r ++ x) "" := by
  induction l with
  | nil => intro s; apply String.ext; simp
  | cons a l ih =>
    intro s
    simp only [List.foldl_cons]
    rw [ih (s ++ a), ih ("" ++ a)]
    apply String.ext
    simp

/-- `String.join` unfolded one element. -/
theorem join_cons (a : String) (l : List String) :
    String.join (a :: l) = a ++ String.join l := by
  show (a :: l).foldl (fun r x => r ++ x) "" = a ++ l.foldl (fun r x => r ++ x) ""
  simp only [List.foldl_cons]
  rw [foldl_append_seed l ("" ++ a)]
  apply String.ext
  simp

/-- The bullet accumulation is the concatenation of one bullet per entry. -/
theorem foldl_bullets (files : List String) :
    ∀ s : String,
      files.foldl (fun s f => s ++ "- " ++ f ++ "\n") s =
        s ++ String.join (files.map (fun f => "- " ++ f ++ "\n")) := by
  induction files with
  | nil => intro s; apply String.ext; simp [String.join]
  | cons f fs ih =>
    intro s
    simp only [List.foldl_cons, List.map_cons, join_cons, ih]
    apply String.ext
    simp

/-! ## C2 -/

/-- C2: `createFilesSummary` partitions the changes into the five buckets in
the fixed order Modified, Added, Deleted, Renamed, Other (the latter keeping
the raw status label in its entries), preserving original order inside each
bucket; every non-empty bucket is rendered as a count-carrying header
followed by one bullet per workspace-relative path, an empty bucket renders
as nothing, and the summary ends with the total-count line.  The empty
change list yields exactly "No changes detected." with no total line. -/
theorem C2_files_summary_spec (root : String) (changes : List GitChange) :
    createFilesSummary root [] = "No changes detected." ∧
    ¬ ("Total".data <:+: (createFilesSummary root []).data) ∧
    (changes ≠ [] →
      createFilesSummary root changes =
        renderBucket "Modified Files" (bucketList root changes .modified) ++
          renderBucket "Added Files" (bucketList root changes .added) ++
          renderBucket "Deleted Files" (bucketList root changes .deleted) ++
          renderBucket "Renamed Files" (bucketList root changes .renamed) ++
          renderBucket "Other Changes" (bucketList root changes .other) ++
          totalLine changes.length) ∧
    (∀ title : String, renderBucket title [] = "") ∧
    (∀ (title : String) (files : List String), files ≠ [] →
      renderBucket title files =
        "**" ++ title ++ " (" ++ toString files.length ++ "):**\n" ++
          String.join (files.map (fun file => "- " ++ file ++ "\n")) ++ "\n") := by
  refine ⟨rfl, ?_, ?_, ?_, ?_⟩
  · rw [show createFilesSummary root [] = "No changes detected." from rfl]
    decide
  · intro h
    have hlen : changes.length ≠ 0 := by simpa using h
    simp only [createFilesSummary, hlen, if_neg hlen]
    rw [foldl_pushChange root changes Buckets.empty]
    simp [Buckets.empty]
  · intro title; simp [renderBucket]
  · intro title files hf
    have hlen : 0 < files.length := List.length_pos.mpr hf
    simp [renderBucket, hlen, foldl_bullets files ""]

/-- C2 witness: a concrete three-change list exercising the non-empty
branches. -/
theorem C2_files_summary_witness :
    createFilesSummary "/w"
        [⟨"/w/a.ts", "Modified"⟩, ⟨"/w/b.ts", "Added"⟩, ⟨"/w/c.bin", "Untracked"⟩] =
      renderBucket "Modified Files" ["a.ts"] ++ renderBucket "Added Files" ["b.ts"] ++
        renderBucket "Deleted Files" [] ++ renderBucket "Renamed Files" [] ++
        renderBucket "Other Changes" ["c.bin (Untracked)"] ++ totalLine 3 ∧
    renderBucket "Added Files" ["b.ts"] = "**Added Files (1):**\n- b.ts\n\n" := by
  constructor
  · have h := (C2_files_summary_spec "/w"
      [⟨"/w/a.ts", "Modified"⟩, ⟨"/w/b.ts", "Added"⟩, ⟨"/w/c.bin", "Untracked"⟩]).2.2.1
      (by decide)
    rw [h]
    decide
  · have h := (C2_files_summary_spec "/w" []).2.2.2.2 "Added Files" ["b.ts"] (by decide)
    rw [h]
    decide

/-! ## C1 -/

/-- C1: when the collected diff fits in `MAX_DIFF_SIZE` (40,000) characters
the context's diff section is the literal diff labeled as a full diff; when
it is strictly larger, the diff section is the synthesized per-status file
summary labeled as truncated, it does not depend on the diff text at all
(hence contains none of it: any two oversized diffs produce the identical
section), and the raw diff — being longer than the section — cannot occur
inside it.  `getCommitContext` splices exactly this section between the
fixed context header and the diff-independent tail. -/
theorem C1_size_guarded_diff_section (root : String) (changes : List GitChange)
    (staged : Bool) (env : CtxEnv) (diff : String)
    (h : env.diffResult = Except.ok diff) :
    (diff.length ≤ MAX_DIFF_SIZE →
      diffSectionOf root changes staged env.diffResult =
        "### Full Diff of " ++ changeTypeLabel staged ++ " Changes\n```diff\n" ++
          diff ++ "\n```\n\n") ∧
    (MAX_DIFF_SIZE < diff.length →
      diffSectionOf root changes staged env.diffResult =
        "### " ++ changeTypeLabel staged ++
          " Changes Summary (Diff truncated due to size)\n\n" ++
          createFilesSummary root changes ++ "\n\n" ∧
      (∀ d2 : String, MAX_DIFF_SIZE < d2.length →
        diffSectionOf root changes staged (Except.ok d2) =
          diffSectionOf root changes staged env.diffResult) ∧
      ((diffSectionOf root changes staged env.diffResult).length < diff.length →
        ¬ (diff.data <:+: (diffSectionOf root changes staged env.diffResult).data))) ∧
    getCommitContext root changes staged env =
      "## Git Context for Commit Message Generation\n\n" ++
        diffSectionOf root changes staged env.diffResult ++ contextTailOf env := by
  refine ⟨?_, ?_, rfl⟩
  · intro hle
    rw [h]
    have hngt : ¬ diff.length > MAX_DIFF_SIZE := by omega
    simp [diffSectionOf, hngt]
  · intro hgt
    refine ⟨?_, ?_, ?_⟩
    · rw [h]
      simp [diffSectionOf, hgt]
    · intro d2 h2
      rw [h]
      simp [diffSectionOf, hgt, h2]
    · intro hlt hin
      have hle2 : diff.data.length ≤ (diffSectionOf root changes staged env.diffResult).data.length :=
        hin.length_le
      have hlt2 : (diffSectionOf root changes staged env.diffResult).data.length < diff.data.length :=
        hlt
      omega

/-- C1 witness: a one-character diff takes the full-diff branch. -/
theorem C1_size_guarded_diff_section_witness :
    diffSectionOf "/w" [] true (Except.ok "d") =
      "### Full Diff of Staged Changes\n```diff\nd\n```\n\n" :=
  (C1_size_guarded_diff_section "/w" [] true
    ⟨Except.ok "d", Except.ok "", Except.ok "", Except.ok ""⟩ "d" rfl).1 (by decide)

/-! ## C3 / C4: the diff-collection loop -/

/-- One step of the collection loop when the per-file diff succeeds. -/
theorem diffLoop_cons (inc : String → Bool) (fd : String → String) (cb : Bool)
    (total p : Nat) (f : String) (rest : List String) :
    diffLoop inc (fun x => Except.ok (fd x)) cb total p (f :: rest) =
      ((diffLoop inc (fun x => Except.ok (fd x)) cb total (p + 1) rest).1.map
         (fun l =>
           (if inc f then (if jsTrimS (fd f) ≠ "" then [jsTrimS (fd f)] else []) else []) ++ l),
       (if cb ∧ 0 < total then [((p + 1 : ℚ) / (total : ℚ)) * 100] else []) ++
         (diffLoop inc (fun x => Except.ok (fd x)) cb total (p + 1) rest).2) := by
  by_cases hf : inc f <;> simp [diffLoop, hf, Except.map]

/-- Characterization of the collection loop when every per-file diff
succeeds: the collected blocks are the trimmed non-empty diffs of the
non-excluded files in listing order, and (when a callback is supplied and
the file count is positive) one percentage is reported per file. -/
theorem diffLoop_ok (inc : String → Bool) (fd : String → String) (cb : Bool)
    (total : Nat) (files : List String) :
    ∀ p : Nat,
      diffLoop inc (fun x => Except.ok (fd x)) cb total p files =
        (Except.ok (((files.filter inc).map (fun f => jsTrimS (fd f))).filter (· ≠ "")),
         if cb ∧ 0 < total then
           (List.range files.length).map
             (fun (i : Nat) => (((p : ℚ) + (i : ℚ) + 1) / (total : ℚ)) * 100)
         else []) := by
  induction files with
  | nil => intro p; simp [diffLoop]
  | cons f rest ih =>
    intro p
    rw [diffLoop_cons, ih (p + 1)]
    simp only [Prod.mk.injEq]
    constructor
    · simp only [Except.map]
      by_cases hf : inc f
      · by_cases ht : jsTrimS (fd f) = "" <;>
          simp [List.filter_cons, hf, ht]
      · simp [List.filter_cons, hf]
    · by_cases hcb : cb ∧ 0 < total
      · simp only [hcb, if_true, List.length_cons, List.range_succ_eq_map,
          List.map_cons, List.map_map]
        refine List.cons_eq_cons.mpr ⟨by norm_num, ?_⟩
        refine List.map_congr_left ?_
        intro i _
        simp only [Function.comp_apply]
        push_cast
        ring
      · simp [hcb]

/-- C4: the Diff Collector processes the listed files in listing order,
skips exactly the files the exclusion filter rejects, fetches the per-file
diff of each remaining file, drops diffs that trim to empty, and joins the
survivors with a single newline in listing order. -/
theorem C4_diff_collection_pipeline (inc : String → Bool) (fd : String → String)
    (cb : Bool) (out : String) :
    getDiffForChanges inc (fun f => Except.ok (fd f)) cb (Except.ok out) =
      (String.intercalate "\n"
        ((((listFiles out).filter inc).map (fun f => jsTrimS (fd f))).filter (· ≠ "")),
       if cb ∧ 0 < (listFiles out).length then
         (List.range (listFiles out).length).map
           (fun (i : Nat) => (((i : ℚ) + 1) / (((listFiles out).length : Nat) : ℚ)) * 100)
       else []) := by
  show getDiffForChangesFiles inc (fun f => Except.ok (fd f)) cb (listFiles out) = _
  rw [getDiffForChangesFiles, diffLoop_ok inc fd cb (listFiles out).length (listFiles out) 0]
  simp only [Nat.cast_zero, zero_add]

/-- C3: for a non-empty file list with a callback supplied, the reported
percentages are exactly `k / N * 100` for `k = 1 .. N` (one report per
processed file, included or not), they are non-decreasing, and the last one
is exactly 100. -/
theorem C3_progress_reports (inc : String → Bool) (fd : String → String)
    (files : List String) (hne : files ≠ []) :
    (getDiffForChangesFiles inc (fun f => Except.ok (fd f)) true files).2 =
      (List.range files.length).map
        (fun (i : Nat) => (((i : ℚ) + 1) / ((files.length : Nat) : ℚ)) * 100) ∧
    (getDiffForChangesFiles inc (fun f => Except.ok (fd f)) true files).2.length =
      files.length ∧
    List.Pairwise (· ≤ ·)
      (getDiffForChangesFiles inc (fun f => Except.ok (fd f)) true files).2 ∧
    (getDiffForChangesFiles inc (fun f => Except.ok (fd f)) true files).2.getLast? =
      some 100 := by
  have hpos : 0 < files.length := List.length_pos.mpr hne
  have hevs : (getDiffForChangesFiles inc (fun f => Except.ok (fd f)) true files).2 =
      (List.range files.length).map
        (fun (i : Nat) => (((i : ℚ) + 1) / ((files.length : Nat) : ℚ)) * 100) := by
    rw [getDiffForChangesFiles, diffLoop_ok inc fd true files.length files 0]
    simp only [Nat.cast_zero, zero_add, true_and, if_pos hpos]
  refine ⟨hevs, ?_, ?_, ?_⟩
  · rw [hevs]; simp
  · rw [hevs]
    refine List.Pairwise.map _ ?_ (List.pairwise_lt_range files.length)
    intro a b hab
    have hN : (0 : ℚ) < (files.length : ℚ) := by exact_mod_cast hpos
    have h1 : ((a : ℚ) + 1) ≤ ((b : ℚ) + 1) := by
      have : a + 1 ≤ b + 1 := Nat.succ_le_succ (Nat.le_of_lt hab)
      exact_mod_cast this
    gcongr
  · rw [hevs]
    obtain ⟨m, hm⟩ : ∃ m, files.length = m + 1 := ⟨files.length - 1, by omega⟩
    rw [hm, List.range_succ, List.map_append, List.map_cons, List.map_nil,
      List.getLast?_concat]
    congr 1
    have hz : ((m : ℚ) + 1) ≠ 0 := by positivity
    push_cast
    field_simp

/-- C3 witness: two files report 50 then 100. -/
theorem C3_progress_reports_witness :
    (getDiffForChangesFiles (fun _ => true) (fun _ => Except.ok ("d" : String)) true
      ["a", "b"]).2 = [50, 100] ∧
    (getDiffForChangesFiles (fun _ => true) (fun _ => Except.ok ("d" : String)) true
      ["a", "b"]).2.getLast? = some 100 := by
  have h := C3_progress_reports (fun _ => true) (fun _ => ("d" : String)) ["a", "b"]
    (by decide)
  constructor
  · rw [h.1]
    norm_num [List.range_succ]
  · exact h.2.2.2

/-! ## C5: failure degrades to empty results -/

/-- C5: when the underlying git invocation fails, `gatherChanges` returns
the empty list and `getDiffForChanges` returns the empty string (with no
progress reported); a per-file diff failure inside the loop likewise
degrades the whole collection to the empty string.  Both embeddings are
total functions, mirroring that the source catches every error instead of
re-raising. -/
theorem C5_vcs_failure_degrades (root : String) (inc : String → Bool)
    (fdE : String → Except String String) (cb : Bool) (e : String) :
    gatherChanges root (Except.error e) = [] ∧
    getDiffForChanges inc fdE cb (Except.error e) = ("", []) ∧
    (∀ (f : String) (rest : List String), inc f = true → fdE f = Except.error e →
      (getDiffForChangesFiles inc fdE cb (f :: rest)).1 = "") := by
  refine ⟨rfl, rfl, ?_⟩
  intro f rest hf he
  simp [getDiffForChangesFiles, diffLoop, hf, he, Except.map]

/-- C5 witness: a failing per-file diff on a singleton listing. -/
theorem C5_vcs_failure_degrades_witness :
    (getDiffForChangesFiles (fun _ => true)
      (fun _ => Except.error ("boom" : String)) false ["a"]).1 = "" :=
  (C5_vcs_failure_degrades "/w" (fun _ => true)
    (fun _ => Except.error ("boom" : String)) false "boom").2.2 "a" [] rfl rfl

/-! ## C6: status-line parsing -/

/-- C6: the enumerator skips lines shorter than two characters, maps the
status codes M, A, D, R, C, U, ? to their named statuses and anything else
to Unknown, and joins the reported path onto the workspace root; in
particular the line `M<TAB>src/a.ts` yields the change
`(root)/src/a.ts, Modified` and `?<TAB>untracked.txt` yields Untracked. -/
theorem C6_status_line_parsing (root : String) :
    (∀ line : String, line.length < 2 → parseStatusLine root line = none) ∧
    getChangeStatusFromCode "M" = "Modified" ∧
    getChangeStatusFromCode "A" = "Added" ∧
    getChangeStatusFromCode "D" = "Deleted" ∧
    getChangeStatusFromCode "R" = "Renamed" ∧
    getChangeStatusFromCode "C" = "Copied" ∧
    getChangeStatusFromCode "U" = "Updated" ∧
    getChangeStatusFromCode "?" = "Untracked" ∧
    (∀ code : String, code ≠ "M" → code ≠ "A" → code ≠ "D" → code ≠ "R" →
      code ≠ "C" → code ≠ "U" → code ≠ "?" →
      getChangeStatusFromCode code = "Unknown") ∧
    gatherChanges root (Except.ok "M\tsrc/a.ts") =
      [{ filePath := pathJoin root "src/a.ts", status := "Modified" }] ∧
    gatherChanges root (Except.ok "?\tuntracked.txt") =
      [{ filePath := pathJoin root "untracked.txt", status := "Untracked" }] := by
  refine ⟨?_, rfl, rfl, rfl, rfl, rfl, rfl, rfl, ?_, rfl, rfl⟩
  · intro line h
    simp [parseStatusLine, h]
  · intro code h1 h2 h3 h4 h5 h6 h7
    simp [getChangeStatusFromCode, h1, h2, h3, h4, h5, h6, h7]

/-- C6 witness: a one-character line is skipped, an unknown code maps to
Unknown. -/
theorem C6_status_line_parsing_witness :
    parseStatusLine "/w" "Z" = none ∧ getChangeStatusFromCode "Z" = "Unknown" :=
  ⟨(C6_status_line_parsing "/w").1 "Z" (by decide),
   (C6_status_line_parsing "/w").2.2.2.2.2.2.2.2.1 "Z" (by decide) (by decide)
     (by decide) (by decide) (by decide) (by decide) (by decide)⟩

/-! ## C7: built-in lock-file exclusion -/

/-- C7: `shouldExcludeLockFile` accepts (excludes) every path whose final
segment is exactly `package-lock.json`, at any depth — in particular
`a/b/package-lock.json` — and does not exclude `src/package-lock-info.ts`:
built-in names match only whole path segments, never partial names. -/
theorem C7_lock_file_exclusion :
    (∀ p : String,
      (pathSegs (normalizePath p)).getLast? = some "package-lock.json" →
      shouldExcludeLockFile p = true) ∧
    shouldExcludeLockFile "a/b/package-lock.json" = true ∧
    shouldExcludeLockFile "src/package-lock-info.ts" = false := by
  refine ⟨?_, by decide, by decide⟩
  intro p hlast
  have hmem : "package-lock.json" ∈ pathSegs (normalizePath p) := by
    obtain ⟨hne, hx⟩ := List.mem_getLast?_eq_getLast (Option.mem_def.mpr hlast)
    rw [hx]
    exact List.getLast_mem hne
  simp only [shouldExcludeLockFile, Bool.or_eq_true, List.any_eq_true]
  left
  refine ⟨"package-lock.json", by decide, ?_⟩
  simpa using hmem

/-- C7 witness: a nested lock file is excluded through the general
final-segment rule. -/
theorem C7_lock_file_exclusion_witness :
    shouldExcludeLockFile "x/package-lock.json" = true :=
  C7_lock_file_exclusion.1 "x/package-lock.json" (by decide)

/-! ## C10: previous-message plumbing -/

/-- C10 counterexample: with a stored empty previous commit message and an
unchanged git context, a previous message exists (is non-null) and the
contexts are equal, yet the built parameters carry no `previousMessage`
(the `|| undefined` collapse drops the empty string), contradicting the
claimed if-and-only-if. -/
theorem C10_previous_message_counterexample :
    (buildPromptParams (some "c") (some "") "c" "").previousMessage = none ∧
    ((some "c" : Option String) = some "c") ∧ ((some "" : Option String) ≠ none) := by
  exact ⟨rfl, rfl, by decide⟩

/-- C10 (amended): `previousMessage` is supplied iff the fresh git context
equals the stored one and the stored previous commit message exists and is
non-empty; in that case the field carries exactly the stored message, and
in every other case it is absent. -/
theorem C10_previous_message_rule (pc pm : Option String) (ctx ct : String) :
    ((buildPromptParams pc pm ctx ct).previousMessage ≠ none ↔
      (pc = some ctx ∧ ∃ m, pm = some m ∧ m ≠ "")) ∧
    (∀ m : String, pm = some m → m ≠ "" → pc = some ctx →
      (buildPromptParams pc pm ctx ct).previousMessage = some m) := by
  constructor
  · cases pc with
    | none => simp [buildPromptParams, jsOrUndefined]
    | some c =>
      by_cases hc : c = ctx
      · subst hc
        cases pm with
        | none => simp [buildPromptParams, jsOrUndefined]
        | some m =>
          by_cases hm : m = ""
          · subst hm
            simp [buildPromptParams, jsOrUndefined]
          · simp [buildPromptParams, jsOrUndefined, hm]
      · cases pm with
        | none => simp [buildPromptParams, jsOrUndefined, hc]
        | some m => simp [buildPromptParams, jsOrUndefined, hc]
  · intro m hpm hm hpc
    subst hpm
    subst hpc
    simp [buildPromptParams, jsOrUndefined, hm]

/-- C10 witness: equal contexts and a non-empty stored message do supply
it. -/
theorem C10_previous_message_rule_witness :
    (buildPromptParams (some "c") (some "m") "c" "").previousMessage = some "m" :=
  (C10_previous_message_rule (some "c") (some "m") "c" "").2 "m" rfl (by decide) rfl

/-! ## C8: prompt rendering -/

/-- Characters without a placeholder opener pass through the substitution
scan untouched (the following text must not start with an opening brace, or
a trailing dollar could fuse with it). -/
theorem substGo_pass (f : String → String) (l : List Char) :
    ∀ tail : List Char, noDB l = true → tail.head? ≠ some lbrChar →
      substGo f none (l ++ tail) = l ++ substGo f none tail := by
  induction l with
  | nil => intro tail _ _; simp
  | cons c l ih =>
    intro tail hdb hhd
    cases l with
    | nil =>
      cases tail with
      | nil => simp [substGo]
      | cons t ts =>
        have ht : ¬ (c = '$' ∧ t = lbrChar) := by
          rintro ⟨-, rfl⟩
          exact hhd rfl
        simp [substGo, ht]
    | cons c2 l2 =>
      have hdb' : noDB (c2 :: l2) = true := by
        simp only [noDB, Bool.and_eq_true] at hdb
        exact hdb.2
      have hpair : ¬ (c = '$' ∧ c2 = lbrChar) := by
        simp only [noDB, Bool.and_eq_true, Bool.not_eq_true', Bool.and_eq_false_iff,
          beq_eq_false_iff_ne, ne_eq] at hdb
        rcases hdb.1 with h | h <;> rintro ⟨h1, h2⟩ <;> [exact h h1; exact h h2]
      show substGo f none (c :: c2 :: (l2 ++ tail)) = _
      rw [substGo, if_neg hpair]
      have := ih tail hdb' hhd
      rw [show (c2 :: l2) ++ tail = c2 :: (l2 ++ tail) from rfl] at this
      rw [this]
      rfl

/-- A placeholder-free chunk is emitted unchanged. -/
theorem substGo_pass_nil (f : String → String) (l : List Char) (h : noDB l = true) :
    substGo f none l = l := by
  have h2 := substGo_pass f l [] h (by simp)
  have h0 : substGo f none [] = ([] : List Char) := by simp [substGo]
  rw [h0] at h2
  simpa using h2

/-- Consuming a well-formed key inside a token: the accumulated key is
looked up and spliced, scanning resumes after the closing brace. -/
theorem substGo_key (f : String → String) (key : List Char) :
    ∀ acc tail : List Char, keyOK key = true →
      substGo f (some acc) (key ++ rbrChar :: tail) =
        (f (String.mk (acc.reverse ++ key))).data ++ substGo f none tail := by
  induction key with
  | nil =>
    intro acc tail _
    simp [substGo]
  | cons k ks ih =>
    intro acc tail hok
    have hk : ¬ k = rbrChar ∧ ¬ k = '\n' := by
      simp only [keyOK, List.all_cons, Bool.and_eq_true, Bool.not_eq_true',
        beq_eq_false_iff_ne, ne_eq] at hok
      exact hok.1
    have hok' : keyOK ks = true := by
      simp only [keyOK, List.all_cons, Bool.and_eq_true] at hok
      exact hok.2
    show substGo f (some acc) (k :: (ks ++ rbrChar :: tail)) = _
    rw [substGo, if_neg hk.1, if_neg hk.2, ih (k :: acc) tail hok']
    congr 2
    simp

/-- A full placeholder token substitutes to the keyed field. -/
theorem substGo_tok (f : String → String) (k : String) (tail : List Char)
    (hok : keyOK k.data = true) :
    substGo f none (tok k ++ tail) = (f k).data ++ substGo f none tail := by
  show substGo f none ('$' :: lbrChar :: (k.data ++ [rbrChar]) ++ tail) = _
  rw [show ('$' :: lbrChar :: (k.data ++ [rbrChar])) ++ tail =
    '$' :: lbrChar :: (k.data ++ rbrChar :: tail) from by simp]
  cases hkd : k.data ++ rbrChar :: tail with
  | nil => simp at hkd
  | cons a as =>
    rw [substGo, if_pos ⟨rfl, rfl⟩, ← hkd, substGo_key f k.data [] tail hok]
    simp

/-- The customInstructions placeholder text is the token for its key. -/
theorem tokCI_data : ("${customInstructions}" : String).data = tok "customInstructions" := by
  decide

/-- The gitContext placeholder text is the token for its key. -/
theorem tokGC_data : ("${gitContext}" : String).data = tok "gitContext" := by
  decide

/-- The previousMessage placeholder text is the token for its key. -/
theorem tokPM_data : ("${previousMessage}" : String).data = tok "previousMessage" := by
  decide

/-- The character list of the standard template, split at its two
placeholder tokens. -/
theorem default_template_data :
    DEFAULT_COMMIT_TEMPLATE.data =
      dSegA.data ++ (("${customInstructions}" : String).data ++ (dSegB.data ++
        (("${gitContext}" : String).data ++
        (dSegCa.data ++ (dSegCb.data ++ (dSegCc.data ++ (dSegCd.data ++ dSegCe.data))))))) := by
  simp only [DEFAULT_COMMIT_TEMPLATE, dSegC, String.data_append, List.append_assoc]


set_option maxRecDepth 8000 in
/-- Renders `createPrompt` on the standard template: placeholder tokens are
replaced by the looked-up fields, everything else is literal. -/
theorem substGo_DEFAULT (f : String → String) :
    substGo f none DEFAULT_COMMIT_TEMPLATE.data =
      dSegA.data ++ (f "customInstructions").data ++ dSegB.data ++
        (f "gitContext").data ++ dSegC.data := by
  rw [default_template_data, tokCI_data, tokGC_data]
  rw [substGo_pass f dSegA.data _ (by decide) (by decide)]
  rw [substGo_tok f "customInstructions" _ (by decide)]
  rw [substGo_pass f dSegB.data _ (by decide) (by decide)]
  rw [substGo_tok f "gitContext" _ (by decide)]
  rw [substGo_pass f dSegCa.data _ (by decide) (by decide)]
  rw [substGo_pass f dSegCb.data _ (by decide) (by decide)]
  rw [substGo_pass f dSegCc.data _ (by decide) (by decide)]
  rw [substGo_pass f dSegCd.data _ (by decide) (by decide)]
  rw [substGo_pass_nil f dSegCe.data (by decide)]
  simp [dSegC, String.data_append, List.append_assoc]

set_option maxRecDepth 8000 in
/-- Renders `createPrompt` on the different-message variant: the directive
with the previous message spliced in is prepended and appended around the
fully substituted standard template. -/
theorem substGo_DIFFERENT (f : String → String) :
    substGo f none DIFFERENT_MESSAGE_TEMPLATE.data =
      hSegA.data ++ ((f "previousMessage").data ++ (hSegB.data ++
        ((dSegA.data ++ (f "customInstructions").data ++ dSegB.data ++
          (f "gitContext").data ++ dSegC.data) ++
        (fSegA.data ++ ((f "previousMessage").data ++ fSegB.data))))) := by
  have hd : DIFFERENT_MESSAGE_TEMPLATE.data =
      hSegA.data ++ (("${previousMessage}" : String).data ++ (hSegB.data ++
        (dSegA.data ++ (("${customInstructions}" : String).data ++ (dSegB.data ++
        (("${gitContext}" : String).data ++ (dSegCa.data ++ (dSegCb.data ++
        (dSegCc.data ++ (dSegCd.data ++ (dSegCe.data ++ (fSegA.data ++
        (("${previousMessage}" : String).data ++ fSegB.data))))))))))))) := by
    simp only [DIFFERENT_MESSAGE_TEMPLATE, DM_HEADER, DM_FOOTER,
      DEFAULT_COMMIT_TEMPLATE, dSegC, String.data_append, List.append_assoc]
  rw [hd, tokPM_data, tokCI_data, tokGC_data]
  rw [substGo_pass f hSegA.data _ (by decide) (by decide)]
  rw [substGo_tok f "previousMessage" _ (by decide)]
  rw [substGo_pass f hSegB.data _ (by decide) (by decide)]
  rw [substGo_pass f dSegA.data _ (by decide) (by decide)]
  rw [substGo_tok f "customInstructions" _ (by decide)]
  rw [substGo_pass f dSegB.data _ (by decide) (by decide)]
  rw [substGo_tok f "gitContext" _ (by decide)]
  rw [substGo_pass f dSegCa.data _ (by decide) (by decide)]
  rw [substGo_pass f dSegCb.data _ (by decide) (by decide)]
  rw [substGo_pass f dSegCc.data _ (by decide) (by decide)]
  rw [substGo_pass f dSegCd.data _ (by decide) (by decide)]
  rw [substGo_pass f dSegCe.data _ (by decide) (by decide)]
  rw [substGo_pass f fSegA.data _ (by decide) (by decide)]
  rw [substGo_tok f "previousMessage" _ (by decide)]
  rw [substGo_pass_nil f fSegB.data (by decide)]
  simp [dSegC, String.data_append, List.append_assoc]

/-- C8 counterexample: a supplied-but-empty `previousMessage` selects the
standard template, not the different-message variant (JavaScript truthiness
treats the empty string as absent), refuting "the variant is selected
exactly when previousMessage is supplied". -/
theorem C8_template_selection_counterexample :
    (PromptParams.mk "" none (some "")).previousMessage.isSome = true ∧
    chooseTemplate ⟨"", none, some ""⟩ = DEFAULT_COMMIT_TEMPLATE ∧
    DEFAULT_COMMIT_TEMPLATE ≠ DIFFERENT_MESSAGE_TEMPLATE := by
  exact ⟨rfl, rfl, by decide⟩

/-- C8 (amended): `createCommitMessagePrompt` selects the different-message
variant exactly when `previousMessage` is supplied and non-empty; the
variant's rendering prepends and appends the directive quoting
`previousMessage` around the substituted standard template; placeholder
substitution splices each supplied field literally (standard template shown
decomposed), and an unknown or undefined field substitutes to the empty
string. -/
theorem C8_prompt_rendering (params : PromptParams) :
    (jsTruthy params.previousMessage = true →
      createCommitMessagePrompt params =
        hSegA ++ optStr params.previousMessage ++ hSegB ++
          createPrompt DEFAULT_COMMIT_TEMPLATE params ++
          fSegA ++ optStr params.previousMessage ++ fSegB) ∧
    (jsTruthy params.previousMessage = false →
      createCommitMessagePrompt params = createPrompt DEFAULT_COMMIT_TEMPLATE params) ∧
    createPrompt DEFAULT_COMMIT_TEMPLATE params =
      dSegA ++ optStr params.customInstructions ++ dSegB ++
        params.gitContext ++ dSegC ∧
    (∀ k : String, k ≠ "gitContext" → k ≠ "customInstructions" →
      k ≠ "previousMessage" → paramLookup params k = "") := by
  have hci : paramLookup params "customInstructions" = optStr params.customInstructions := by
    cases hc : params.customInstructions <;> simp [paramLookup, optStr, hc]
  have hgc : paramLookup params "gitContext" = params.gitContext := by
    simp [paramLookup]
  have hpm : paramLookup params "previousMessage" = optStr params.previousMessage := by
    cases hp : params.previousMessage <;> simp [paramLookup, optStr, hp]
  have hdef : createPrompt DEFAULT_COMMIT_TEMPLATE params =
      dSegA ++ optStr params.customInstructions ++ dSegB ++
        params.gitContext ++ dSegC := by
    show String.mk (substGo (paramLookup params) none DEFAULT_COMMIT_TEMPLATE.data) = _
    rw [substGo_DEFAULT (paramLookup params), hci, hgc]
    apply String.ext
    simp [String.data_append, List.append_assoc]
  refine ⟨?_, ?_, hdef, ?_⟩
  · intro htr
    show createPrompt (chooseTemplate params) params = _
    rw [chooseTemplate, if_pos htr]
    show String.mk (substGo (paramLookup params) none DIFFERENT_MESSAGE_TEMPLATE.data) = _
    rw [substGo_DIFFERENT (paramLookup params), hci, hgc, hpm, hdef]
    apply String.ext
    simp [String.data_append, List.append_assoc]
  · intro hfa
    show createPrompt (chooseTemplate params) params = _
    rw [chooseTemplate, if_neg (by simp [hfa])]
  · intro k h1 h2 h3
    simp [paramLookup, h1, h2, h3]

/-- C8 witness: a non-empty previous message renders the wrapped variant at
concrete fields. -/
theorem C8_prompt_rendering_witness :
    createCommitMessagePrompt ⟨"G", none, some "M"⟩ =
      hSegA ++ "M" ++ hSegB ++ (dSegA ++ "" ++ dSegB ++ "G" ++ dSegC) ++
        fSegA ++ "M" ++ fSegB := by
  have h := C8_prompt_rendering ⟨"G", none, some "M"⟩
  rw [h.1 (by decide), h.2.2.1]
  rfl

/-! ## C9: response cleanup -/

/-- Lowercase regex-class characters are not the backtick. -/
theorem isAZ_ne_bt {c : Char} (h : isAZ c = true) : ¬ c = btChar := by
  intro he
  subst he
  exact absurd h (by decide)

/-- Splitting a backtick-triple check at a cons cell. -/
theorem hasTriple_cons_false {c : Char} {l : List Char} :
    hasTriple (c :: l) = false ↔ ((c = btChar → lbt l ≤ 1) ∧ hasTriple l = false) := by
  simp only [hasTriple, Bool.or_eq_false_iff, Bool.and_eq_false_iff,
    decide_eq_false_iff_not]
  constructor
  · rintro ⟨h1, h2⟩
    refine ⟨?_, h2⟩
    intro hc
    rcases h1 with h | h
    · exact absurd hc h
    · omega
  · rintro ⟨h1, h2⟩
    refine ⟨?_, h2⟩
    by_cases hc : c = btChar
    · right
      have := h1 hc
      omega
    · left
      exact hc

/-- A list with no backtick has no backtick triple. -/
theorem hasTriple_of_nobt :
    ∀ a : List Char, (∀ c ∈ a, ¬ c = btChar) → hasTriple a = false := by
  intro a
  induction a with
  | nil => intro _; rfl
  | cons c a ih =>
    intro h
    rw [hasTriple_cons_false]
    exact ⟨fun hc => absurd hc (h c (List.mem_cons_self c a)),
      ih fun x hx => h x (List.mem_cons_of_mem c hx)⟩

/-- Prefixing backtick-free characters cannot raise the leading-backtick
count. -/
theorem lbt_append_le_right (a b : List Char) (h : ∀ c ∈ a, ¬ c = btChar) :
    lbt (a ++ b) ≤ lbt b := by
  cases a with
  | nil => simp
  | cons c a =>
    have hc : ¬ c = btChar := h c (List.mem_cons_self c a)
    simp [lbt, hc]

/-- A backtick-free prefix contributes nothing to triple detection. -/
theorem hasTriple_append_nobt (a b : List Char) (h : ∀ c ∈ a, ¬ c = btChar) :
    hasTriple (a ++ b) = hasTriple b := by
  induction a with
  | nil => simp
  | cons c a ih =>
    have hc : ¬ c = btChar := h c (List.mem_cons_self c a)
    have ih' := ih fun x hx => h x (List.mem_cons_of_mem c hx)
    simp [hasTriple, hc, ih']

/-- Leading backticks only grow under a right extension. -/
theorem lbt_le_append (a b : List Char) : lbt a ≤ lbt (a ++ b) := by
  induction a with
  | nil => simp [lbt]
  | cons c a ih =>
    by_cases hc : c = btChar <;> simp [lbt, hc, ih]

/-- No triple in a concatenation means none in the left part. -/
theorem hasTriple_pfx (a b : List Char) (h : hasTriple (a ++ b) = false) :
    hasTriple a = false := by
  induction a with
  | nil => rfl
  | cons c a ih =>
    rw [List.cons_append, hasTriple_cons_false] at h
    rw [hasTriple_cons_false]
    refine ⟨?_, ih h.2⟩
    intro hc
    have := h.1 hc
    have := lbt_le_append a b
    omega

/-- No triple in a concatenation means none in the right part. -/
theorem hasTriple_sfx (a b : List Char) (h : hasTriple (a ++ b) = false) :
    hasTriple b = false := by
  induction a with
  | nil => exact h
  | cons c a ih =>
    rw [List.cons_append, hasTriple_cons_false] at h
    exact ih h.2

/-- No triple in a list means none in its tail. -/
theorem hasTriple_tail {c : Char} {l : List Char} (h : hasTriple (c :: l) = false) :
    hasTriple l = false :=
  (hasTriple_cons_false.mp h).2

/-- No triple in a list means none after dropping the last element. -/
theorem hasTriple_dropLast (l : List Char) (h : hasTriple l = false) :
    hasTriple l.dropLast = false := by
  by_cases hl : l = []
  · subst hl; exact h
  · have hd := List.dropLast_append_getLast hl
    rw [← hd] at h
    exact hasTriple_pfx _ _ h

/-- No triple survives `dropWhile`. -/
theorem hasTriple_dropWhile (p : Char → Bool) (l : List Char)
    (h : hasTriple l = false) : hasTriple (l.dropWhile p) = false := by
  have := List.takeWhile_append_dropWhile p l
  rw [← this] at h
  exact hasTriple_sfx _ _ h

/-- The tail-trim is a prefix of its input. -/
theorem dropTail_decomp (p : Char → Bool) (l : List Char) :
    l = dropTail p l ++ (l.reverse.takeWhile p).reverse := by
  conv_lhs => rw [← List.reverse_reverse l,
    ← List.takeWhile_append_dropWhile p l.reverse]
  rw [List.reverse_append]
  rfl

/-- No triple survives the tail-trim. -/
theorem hasTriple_dropTail (p : Char → Bool) (l : List Char)
    (h : hasTriple l = false) : hasTriple (dropTail p l) = false := by
  rw [dropTail_decomp p l] at h
  exact hasTriple_pfx _ _ h

/-- No triple survives a JavaScript trim. -/
theorem hasTriple_jsTrimL (l : List Char) (h : hasTriple l = false) :
    hasTriple (jsTrimL l) = false :=
  hasTriple_dropTail _ _ (hasTriple_dropWhile _ _ h)

/-- Leading-backtick count at a backtick cons. -/
theorem lbt_cons_bt {c : Char} {x : List Char} (hc : c = btChar) :
    lbt (c :: x) = lbt x + 1 := by simp [lbt, hc]

/-- Leading-backtick count at a non-backtick cons. -/
theorem lbt_cons_ne {c : Char} {x : List Char} (hc : ¬ c = btChar) :
    lbt (c :: x) = 0 := by simp [lbt, hc]

/-- A single character has at most one leading backtick. -/
theorem lbt_single (c : Char) : lbt [c] ≤ 1 := by
  by_cases hc : c = btChar <;> simp [lbt, hc]

/-- A backtick-free list has no leading backtick. -/
theorem lbt_eq_zero_of_nobt (a : List Char) (h : ∀ c ∈ a, ¬ c = btChar) :
    lbt a = 0 := by
  cases a with
  | nil => rfl
  | cons c a => exact lbt_cons_ne (h c (List.mem_cons_self c a))

/-- A one-character list has no triple. -/
theorem hasTriple_single (c : Char) : hasTriple [c] = false :=
  hasTriple_cons_false.mpr ⟨fun _ => by simp [lbt], rfl⟩

/-- The code-fence removal scan never produces three consecutive backticks,
and its output begins with at most two backticks — at most as many as its
input in plain-scanning mode. -/
theorem stripGo_inv :
    ∀ (m : Option (List Char)) (l : List Char),
      (match m with
       | none => hasTriple (stripGo none l) = false ∧
           lbt (stripGo none l) ≤ min (lbt l) 2
       | some acc => (∀ c ∈ acc, isAZ c = true) →
           hasTriple (stripGo (some acc) l) = false ∧
             lbt (stripGo (some acc) l) ≤ 2) := by
  intro m l
  induction m, l using stripGo.induct with
  | case1 =>
    exact ⟨rfl, by simp [stripGo, lbt]⟩
  | case2 c =>
    have hstep : stripGo none [c] = [c] := by simp [stripGo]
    refine ⟨by rw [hstep]; exact hasTriple_single c, ?_⟩
    rw [hstep]
    exact le_min (le_refl _) (le_trans (lbt_single c) (by omega))
  | case3 c c2 =>
    have hstep : stripGo none [c, c2] = [c, c2] := by simp [stripGo]
    have h2 : lbt [c2] ≤ 1 := lbt_single c2
    refine ⟨?_, ?_⟩
    · rw [hstep]
      exact hasTriple_cons_false.mpr ⟨fun _ => h2, hasTriple_single c2⟩
    · rw [hstep]
      refine le_min (le_refl _) ?_
      by_cases hc : c = btChar
      · rw [lbt_cons_bt hc]; omega
      · rw [lbt_cons_ne hc]; omega
  | case4 c c2 c3 rest htr ih =>
    obtain ⟨hc1, hc2, hc3⟩ := htr
    have hstep : stripGo none (c :: c2 :: c3 :: rest) = stripGo (some []) rest := by
      simp [stripGo, hc1, hc2, hc3]
    obtain ⟨hT, hL⟩ := ih (fun x hx => absurd hx (List.not_mem_nil x))
    have h2 : 2 ≤ lbt (c :: c2 :: c3 :: rest) := by
      rw [lbt_cons_bt hc1, lbt_cons_bt hc2]
      omega
    refine ⟨by rw [hstep]; exact hT, ?_⟩
    rw [hstep]
    exact le_min (le_trans hL (by omega)) hL
  | case5 c c2 c3 rest h ih =>
    have hstep : stripGo none (c :: c2 :: c3 :: rest) =
        c :: stripGo none (c2 :: c3 :: rest) := by
      simp only [stripGo, if_neg h]
    have hlow : c = btChar → lbt (c2 :: c3 :: rest) ≤ 1 := by
      intro hc
      by_cases h2 : c2 = btChar
      · by_cases h3 : c3 = btChar
        · exact absurd ⟨hc, h2, h3⟩ h
        · rw [lbt_cons_bt h2, lbt_cons_ne h3]
      · rw [lbt_cons_ne h2]
        omega
    have h1 : lbt (stripGo none (c2 :: c3 :: rest)) ≤ lbt (c2 :: c3 :: rest) :=
      le_trans ih.2 (min_le_left _ _)
    refine ⟨?_, ?_⟩
    · rw [hstep]
      exact hasTriple_cons_false.mpr
        ⟨fun hc => by have := hlow hc; omega, ih.1⟩
    · rw [hstep]
      by_cases hc : c = btChar
      · have h3 := hlow hc
        rw [lbt_cons_bt hc, lbt_cons_bt hc]
        exact le_min (by omega) (by omega)
      · rw [lbt_cons_ne hc]
        exact Nat.zero_le _
  | case6 acc =>
    intro hacc
    have hnb : ∀ c ∈ acc.reverse, ¬ c = btChar :=
      fun c hc => isAZ_ne_bt (hacc c (List.mem_reverse.mp hc))
    have hstep : stripGo (some acc) [] = acc.reverse := by simp [stripGo]
    refine ⟨by rw [hstep]; exact hasTriple_of_nobt _ hnb, ?_⟩
    rw [hstep, lbt_eq_zero_of_nobt _ hnb]
    omega
  | case7 acc =>
    intro _
    have hstep : stripGo (some acc) ['\n'] = [] := by simp [stripGo]
    exact ⟨by rw [hstep]; rfl, by rw [hstep]; simp [lbt]⟩
  | case8 acc c h =>
    intro hacc
    have hnb : ∀ x ∈ acc.reverse, ¬ x = btChar :=
      fun x hx => isAZ_ne_bt (hacc x (List.mem_reverse.mp hx))
    have hstep : stripGo (some acc) [c] = acc.reverse ++ [c] := by
      simp only [stripGo, if_neg h]
    refine ⟨?_, ?_⟩
    · rw [hstep, hasTriple_append_nobt _ _ hnb]
      exact hasTriple_single c
    · rw [hstep]
      exact le_trans (lbt_append_le_right _ _ hnb) (le_trans (lbt_single c) (by omega))
  | case9 acc c2 ih =>
    intro _
    have hstep : stripGo (some acc) ['\n', c2] = stripGo none [c2] := by
      simp [stripGo]
    exact ⟨by rw [hstep]; exact ih.1,
      by rw [hstep]; exact le_trans ih.2 (min_le_right _ _)⟩
  | case10 acc c c2 hn haz ih =>
    intro hacc
    have hstep : stripGo (some acc) [c, c2] = stripGo (some (c :: acc)) [c2] := by
      simp only [stripGo, if_neg hn, if_pos haz]
    have hacc' : ∀ x ∈ c :: acc, isAZ x = true := by
      intro x hx
      rcases List.mem_cons.mp hx with rfl | hx
      · exact haz
      · exact hacc x hx
    obtain ⟨hT, hL⟩ := ih hacc'
    exact ⟨by rw [hstep]; exact hT, by rw [hstep]; exact hL⟩
  | case11 acc c c2 hn haz ih =>
    intro hacc
    have hnb : ∀ x ∈ acc.reverse, ¬ x = btChar :=
      fun x hx => isAZ_ne_bt (hacc x (List.mem_reverse.mp hx))
    have hstep : stripGo (some acc) [c, c2] =
        acc.reverse ++ c :: stripGo none [c2] := by
      simp only [stripGo, if_neg hn, if_neg haz]
    have h1 : lbt (stripGo none [c2]) ≤ 1 :=
      le_trans (le_trans ih.2 (min_le_left _ _)) (lbt_single c2)
    refine ⟨?_, ?_⟩
    · rw [hstep, hasTriple_append_nobt _ _ hnb]
      exact hasTriple_cons_false.mpr ⟨fun _ => h1, ih.1⟩
    · rw [hstep]
      refine le_trans (lbt_append_le_right _ _ hnb) ?_
      by_cases hc : c = btChar
      · rw [lbt_cons_bt hc]; omega
      · rw [lbt_cons_ne hc]; omega
  | case12 acc c2 c3 rest ih =>
    intro _
    have hstep : stripGo (some acc) ('\n' :: c2 :: c3 :: rest) =
        stripGo none (c2 :: c3 :: rest) := by
      simp [stripGo]
    exact ⟨by rw [hstep]; exact ih.1,
      by rw [hstep]; exact le_trans ih.2 (min_le_right _ _)⟩
  | case13 acc c c2 c3 rest hn haz ih =>
    intro hacc
    have hstep : stripGo (some acc) (c :: c2 :: c3 :: rest) =
        stripGo (some (c :: acc)) (c2 :: c3 :: rest) := by
      simp only [stripGo, if_neg hn, if_pos haz]
    have hacc' : ∀ x ∈ c :: acc, isAZ x = true := by
      intro x hx
      rcases List.mem_cons.mp hx with rfl | hx
      · exact haz
      · exact hacc x hx
    obtain ⟨hT, hL⟩ := ih hacc'
    exact ⟨by rw [hstep]; exact hT, by rw [hstep]; exact hL⟩
  | case14 acc c c2 c3 rest hn haz htr ih =>
    intro hacc
    have hnb : ∀ x ∈ acc.reverse, ¬ x = btChar :=
      fun x hx => isAZ_ne_bt (hacc x (List.mem_reverse.mp hx))
    have hstep : stripGo (some acc) (c :: c2 :: c3 :: rest) =
        acc.reverse ++ stripGo (some []) rest := by
      simp only [stripGo, if_neg hn, if_neg haz, if_pos htr]
    obtain ⟨hT, hL⟩ := ih (fun x hx => absurd hx (List.not_mem_nil x))
    refine ⟨?_, ?_⟩
    · rw [hstep, hasTriple_append_nobt _ _ hnb]
      exact hT
    · rw [hstep]
      exact le_trans (lbt_append_le_right _ _ hnb) hL
  | case15 acc c c2 c3 rest hn haz htr ih =>
    intro hacc
    have hnb : ∀ x ∈ acc.reverse, ¬ x = btChar :=
      fun x hx => isAZ_ne_bt (hacc x (List.mem_reverse.mp hx))
    have hstep : stripGo (some acc) (c :: c2 :: c3 :: rest) =
        acc.reverse ++ c :: stripGo none (c2 :: c3 :: rest) := by
      simp only [stripGo, if_neg hn, if_neg haz, if_neg htr]
    have hlow : c = btChar → lbt (c2 :: c3 :: rest) ≤ 1 := by
      intro hc
      by_cases h2 : c2 = btChar
      · by_cases h3 : c3 = btChar
        · exact absurd ⟨hc, h2, h3⟩ htr
        · rw [lbt_cons_bt h2, lbt_cons_ne h3]
      · rw [lbt_cons_ne h2]
        omega
    have h1 : lbt (stripGo none (c2 :: c3 :: rest)) ≤ lbt (c2 :: c3 :: rest) :=
      le_trans ih.2 (min_le_left _ _)
    refine ⟨?_, ?_⟩
    · rw [hstep, hasTriple_append_nobt _ _ hnb]
      exact hasTriple_cons_false.mpr
        ⟨fun hc => by have := hlow hc; omega, ih.1⟩
    · rw [hstep]
      refine le_trans (lbt_append_le_right _ _ hnb) ?_
      by_cases hc : c = btChar
      · have h3 := hlow hc
        rw [lbt_cons_bt hc]
        omega
      · rw [lbt_cons_ne hc]
        omega

/-- No triple ever comes out of the fence-removal scan. -/
theorem stripGo_no_triple (l : List Char) : hasTriple (stripGo none l) = false :=
  (stripGo_inv none l).1

/-- Members of `dropWhile` come from the list. -/
theorem mem_dropWhile (p : Char → Bool) (l : List Char) {x : Char}
    (hx : x ∈ l.dropWhile p) : x ∈ l := by
  have h := List.takeWhile_append_dropWhile p l
  rw [← h]
  exact List.mem_append_right _ hx

/-- Members of the tail-trim come from the list. -/
theorem mem_dropTail (p : Char → Bool) (l : List Char) {x : Char}
    (hx : x ∈ dropTail p l) : x ∈ l := by
  rw [dropTail_decomp p l]
  exact List.mem_append_left _ hx

/-- Members of the trim come from the list. -/
theorem mem_jsTrimL (l : List Char) {x : Char} (hx : x ∈ jsTrimL l) : x ∈ l :=
  mem_dropWhile _ _ (mem_dropTail _ _ hx)

/-- Members of a tail come from the list. -/
theorem mem_tail (l : List Char) {x : Char} (hx : x ∈ l.tail) : x ∈ l := by
  cases l with
  | nil => simp at hx
  | cons c rest => exact List.mem_cons_of_mem c hx

/-- Members of `dropLast` come from the list. -/
theorem mem_dropLast (l : List Char) {x : Char} (hx : x ∈ l.dropLast) : x ∈ l := by
  by_cases hl : l = []
  · subst hl; simp at hx
  · rw [← List.dropLast_append_getLast hl]
    exact List.mem_append_left _ hx

/-- Characters emitted by the fence-removal scan come from the scanned text
or from the pending tag accumulator. -/
theorem stripGo_mem :
    ∀ (m : Option (List Char)) (l : List Char),
      (match m with
       | none => ∀ x, x ∈ stripGo none l → x ∈ l
       | some acc => ∀ x, x ∈ stripGo (some acc) l → x ∈ acc ∨ x ∈ l) := by
  intro m l
  induction m, l using stripGo.induct with
  | case1 => intro x hx; simp [stripGo] at hx
  | case2 c => intro x hx; simpa [stripGo] using hx
  | case3 c c2 => intro x hx; simpa [stripGo] using hx
  | case4 c c2 c3 rest htr ih =>
    intro x hx
    rw [show stripGo none (c :: c2 :: c3 :: rest) = stripGo (some []) rest from by
      simp [stripGo, htr.1, htr.2.1, htr.2.2]] at hx
    rcases ih x hx with hx | hx
    · simp at hx
    · simp [hx]
  | case5 c c2 c3 rest h ih =>
    intro x hx
    rw [show stripGo none (c :: c2 :: c3 :: rest) =
        c :: stripGo none (c2 :: c3 :: rest) from by simp only [stripGo, if_neg h]] at hx
    rcases List.mem_cons.mp hx with rfl | hx
    · exact List.mem_cons_self _ _
    · exact List.mem_cons_of_mem _ (ih x hx)
  | case6 acc =>
    intro x hx
    rw [show stripGo (some acc) [] = acc.reverse from by simp [stripGo]] at hx
    exact Or.inl (List.mem_reverse.mp hx)
  | case7 acc =>
    intro x hx
    rw [show stripGo (some acc) ['\n'] = [] from by simp [stripGo]] at hx
    simp at hx
  | case8 acc c h =>
    intro x hx
    rw [show stripGo (some acc) [c] = acc.reverse ++ [c] from by
      simp only [stripGo, if_neg h]] at hx
    rcases List.mem_append.mp hx with hx | hx
    · exact Or.inl (List.mem_reverse.mp hx)
    · simp at hx
      simp [hx]
  | case9 acc c2 ih =>
    intro x hx
    rw [show stripGo (some acc) ['\n', c2] = stripGo none [c2] from by
      simp [stripGo]] at hx
    have := ih x hx
    right
    exact List.mem_cons_of_mem _ this
  | case10 acc c c2 hn haz ih =>
    intro x hx
    rw [show stripGo (some acc) [c, c2] = stripGo (some (c :: acc)) [c2] from by
      simp only [stripGo, if_neg hn, if_pos haz]] at hx
    rcases ih x hx with hx | hx
    · rcases List.mem_cons.mp hx with rfl | hx
      · right; exact List.mem_cons_self _ _
      · exact Or.inl hx
    · right; exact List.mem_cons_of_mem _ hx
  | case11 acc c c2 hn haz ih =>
    intro x hx
    rw [show stripGo (some acc) [c, c2] = acc.reverse ++ c :: stripGo none [c2] from by
      simp only [stripGo, if_neg hn, if_neg haz]] at hx
    rcases List.mem_append.mp hx with hx | hx
    · exact Or.inl (List.mem_reverse.mp hx)
    · rcases List.mem_cons.mp hx with rfl | hx
      · right; exact List.mem_cons_self _ _
      · right; exact List.mem_cons_of_mem _ (ih x hx)
  | case12 acc c2 c3 rest ih =>
    intro x hx
    rw [show stripGo (some acc) ('\n' :: c2 :: c3 :: rest) =
        stripGo none (c2 :: c3 :: rest) from by simp [stripGo]] at hx
    right
    exact List.mem_cons_of_mem _ (ih x hx)
  | case13 acc c c2 c3 rest hn haz ih =>
    intro x hx
    rw [show stripGo (some acc) (c :: c2 :: c3 :: rest) =
        stripGo (some (c :: acc)) (c2 :: c3 :: rest) from by
      simp only [stripGo, if_neg hn, if_pos haz]] at hx
    rcases ih x hx with hx | hx
    · rcases List.mem_cons.mp hx with rfl | hx
      · right; exact List.mem_cons_self _ _
      · exact Or.inl hx
    · right; exact List.mem_cons_of_mem _ hx
  | case14 acc c c2 c3 rest hn haz htr ih =>
    intro x hx
    rw [show stripGo (some acc) (c :: c2 :: c3 :: rest) =
        acc.reverse ++ stripGo (some []) rest from by
      simp only [stripGo, if_neg hn, if_neg haz, if_pos htr]] at hx
    rcases List.mem_append.mp hx with hx | hx
    · exact Or.inl (List.mem_reverse.mp hx)
    · rcases ih x hx with hx | hx
      · simp at hx
      · right
        exact List.mem_cons_of_mem _ (List.mem_cons_of_mem _ (List.mem_cons_of_mem _ hx))
  | case15 acc c c2 c3 rest hn haz htr ih =>
    intro x hx
    rw [show stripGo (some acc) (c :: c2 :: c3 :: rest) =
        acc.reverse ++ c :: stripGo none (c2 :: c3 :: rest) from by
      simp only [stripGo, if_neg hn, if_neg haz, if_neg htr]] at hx
    rcases List.mem_append.mp hx with hx | hx
    · exact Or.inl (List.mem_reverse.mp hx)
    · rcases List.mem_cons.mp hx with rfl | hx
      · right; exact List.mem_cons_self _ _
      · right; exact List.mem_cons_of_mem _ (ih x hx)

/-- The quote-strip is one of four boundary truncations of its input. -/
theorem quoteStrip_cases (l : List Char) :
    quoteStrip l = l ∨ quoteStrip l = l.tail ∨ quoteStrip l = l.dropLast ∨
      quoteStrip l = l.tail.dropLast := by
  cases l with
  | nil => left; rfl
  | cons c rest =>
    by_cases hc : c ∈ quoteChars
    · cases hg : rest.getLast? with
      | none =>
        right; left
        simp [quoteStrip, hc, hg]
      | some d =>
        by_cases hd : d ∈ quoteChars
        · right; right; right
          simp [quoteStrip, hc, hg, hd]
        · right; left
          simp [quoteStrip, hc, hg, hd]
    · cases hg : (c :: rest).getLast? with
      | none => left; simp [quoteStrip, hc, hg]
      | some d =>
        by_cases hd : d ∈ quoteChars
        · right; right; left
          simp [quoteStrip, hc, hg, hd]
        · left
          simp [quoteStrip, hc, hg, hd]

/-- No triple survives the quote-strip. -/
theorem hasTriple_quoteStrip (l : List Char) (h : hasTriple l = false) :
    hasTriple (quoteStrip l) = false := by
  have ht : hasTriple l.tail = false := by
    cases l with
    | nil => exact h
    | cons c rest => exact hasTriple_tail h
  rcases quoteStrip_cases l with hq | hq | hq | hq <;> rw [hq]
  · exact h
  · exact ht
  · exact hasTriple_dropLast _ h
  · exact hasTriple_dropLast _ ht

/-- Members of the quote-strip come from the list. -/
theorem mem_quoteStrip (l : List Char) {x : Char} (hx : x ∈ quoteStrip l) :
    x ∈ l := by
  rcases quoteStrip_cases l with hq | hq | hq | hq <;> rw [hq] at hx
  · exact hx
  · exact mem_tail _ hx
  · exact mem_dropLast _ hx
  · exact mem_tail _ (mem_dropLast _ hx)

/-- The hash-strip is the identity or a double `dropWhile` of the tail. -/
theorem hashStrip_cases (l : List Char) :
    hashStrip l = l ∨ hashStrip l = (l.tail.dropWhile (· = '#')).dropWhile jsWS := by
  cases l with
  | nil => left; rfl
  | cons c rest =>
    by_cases hc : c = '#'
    · right; simp [hashStrip, hc]
    · left; simp [hashStrip, hc]

/-- No triple survives the hash-strip. -/
theorem hasTriple_hashStrip (l : List Char) (h : hasTriple l = false) :
    hasTriple (hashStrip l) = false := by
  rcases hashStrip_cases l with hq | hq <;> rw [hq]
  · exact h
  · refine hasTriple_dropWhile _ _ (hasTriple_dropWhile _ _ ?_)
    cases l with
    | nil => exact h
    | cons c rest => exact hasTriple_tail h

/-- Members of the hash-strip come from the list. -/
theorem mem_hashStrip (l : List Char) {x : Char} (hx : x ∈ hashStrip l) :
    x ∈ l := by
  rcases hashStrip_cases l with hq | hq <;> rw [hq] at hx
  · exact hx
  · exact mem_tail _ (mem_dropWhile _ _ (mem_dropWhile _ _ hx))

/-- On star-free input the bold-marker removal is the identity. -/
theorem boldGo_id :
    ∀ (m : Option (List Char)) (l : List Char),
      (match m with
       | none => (∀ c ∈ l, ¬ c = '*') → boldGo none l = l
       | some _ => True) := by
  intro m l
  induction m, l using boldGo.induct with
  | case1 => intro _; rfl
  | case2 c => intro _; rfl
  | case3 c c2 rest2 h ih =>
    intro hl
    exact absurd h.1 (hl c (List.mem_cons_self _ _))
  | case4 c c2 rest2 h ih =>
    intro hl
    rw [show boldGo none (c :: c2 :: rest2) = c :: boldGo none (c2 :: rest2) from by
      simp only [boldGo, if_neg h]]
    rw [ih fun x hx => hl x (List.mem_cons_of_mem _ hx)]
  | case5 acc => trivial
  | case6 acc c => trivial
  | case7 acc c c2 rest2 h => trivial
  | case8 acc c c2 rest2 h => trivial
  | case9 acc c c2 rest2 h => trivial

/-- Characters after `dropWhile` start with a failing character. -/
theorem dropWhile_head_not (p : Char → Bool) (l : List Char) :
    ∀ c, (l.dropWhile p).head? = some c → p c = false := by
  induction l with
  | nil => intro c h; simp at h
  | cons a l ih =>
    intro c h
    by_cases hp : p a
    · rw [List.dropWhile_cons_of_pos hp] at h
      exact ih c h
    · rw [List.dropWhile_cons_of_neg hp] at h
      simp only [List.head?_cons, Option.some.injEq] at h
      subst h
      simpa using hp

/-- The head of a non-empty prefix is the head of the whole. -/
theorem head_of_pfx {a b : List Char} {c : Char} (h : a.head? = some c) :
    (a ++ b).head? = some c := by
  cases a with
  | nil => simp at h
  | cons x xs => simpa using h

/-- A JavaScript trim leaves no whitespace at either end. -/
theorem jsTrim_noEdge (l : List Char) : noEdgeWS (jsTrimL l) = true := by
  have hhead : ∀ c, (jsTrimL l).head? = some c → jsWS c = false := by
    intro c hc
    have hy : (l.dropWhile jsWS).head? = some c := by
      have hd := dropTail_decomp jsWS (l.dropWhile jsWS)
      rw [hd]
      exact head_of_pfx hc
    exact dropWhile_head_not jsWS l c hy
  have hlast : ∀ c, (jsTrimL l).getLast? = some c → jsWS c = false := by
    intro c hc
    have : ((l.dropWhile jsWS).reverse.dropWhile jsWS).reverse.getLast? = some c := hc
    rw [List.getLast?_reverse] at this
    exact dropWhile_head_not jsWS (l.dropWhile jsWS).reverse c this
  unfold noEdgeWS
  rw [Bool.and_eq_true]
  constructor
  · cases hc : (jsTrimL l).head? with
    | none => rfl
    | some c => simp [hhead c hc]
  · cases hc : (jsTrimL l).getLast? with
    | none => rfl
    | some c => simp [hlast c hc]

/-- C9 counterexample: bold-marker removal can fuse backtick runs, so the
cleaned message can contain three consecutive backticks: on the input
`x``**`**`x` (which contains no backtick triple) the pipeline returns
`x````x`. -/
theorem C9_extract_counterexample :
    extractCommitMessage "x``**`**`x" = "x````x" ∧
    hasTriple (extractCommitMessage "x``**`**`x").data = true := by
  exact ⟨by decide, by decide⟩

/-- C9 (amended): `extractCommitMessage` always returns a string with no
leading or trailing whitespace; and for every input containing no asterisk
(so that bold-marker removal cannot fuse backtick runs) the result contains
no three consecutive backticks. -/
theorem C9_extract_cleanup (s : String) :
    noEdgeWS (extractCommitMessage s).data = true ∧
    ((∀ c ∈ s.data, ¬ c = '*') →
      hasTriple (extractCommitMessage s).data = false) := by
  have hdata : (extractCommitMessage s).data =
      jsTrimL (boldGo none (hashStrip (quoteStrip (stripGo none (jsTrimL s.data))))) :=
    rfl
  constructor
  · rw [hdata]
    exact jsTrim_noEdge _
  · intro hs
    have h0 : ∀ c ∈ jsTrimL s.data, ¬ c = '*' :=
      fun c hc => hs c (mem_jsTrimL _ hc)
    have h1 : ∀ c ∈ stripGo none (jsTrimL s.data), ¬ c = '*' :=
      fun c hc => h0 c (stripGo_mem none (jsTrimL s.data) c hc)
    have h2 : ∀ c ∈ quoteStrip (stripGo none (jsTrimL s.data)), ¬ c = '*' :=
      fun c hc => h1 c (mem_quoteStrip _ hc)
    have h3 : ∀ c ∈ hashStrip (quoteStrip (stripGo none (jsTrimL s.data))), ¬ c = '*' :=
      fun c hc => h2 c (mem_hashStrip _ hc)
    have hid : boldGo none (hashStrip (quoteStrip (stripGo none (jsTrimL s.data)))) =
        hashStrip (quoteStrip (stripGo none (jsTrimL s.data))) :=
      boldGo_id none _ h3
    rw [hdata, hid]
    exact hasTriple_jsTrimL _
      (hasTriple_hashStrip _ (hasTriple_quoteStrip _ (stripGo_no_triple _)))

/-- C9 witness: a fenced star-free response cleans to an edge-trimmed,
fence-free message. -/
theorem C9_extract_cleanup_witness :
    noEdgeWS (extractCommitMessage "  ```\nfeat: add x\n``` ").data = true ∧
    hasTriple (extractCommitMessage "  ```\nfeat: add x\n``` ").data = false := by
  have h := C9_extract_cleanup "  ```\nfeat: add x\n``` "
  exact ⟨h.1, h.2 (by decide)⟩

end FastCommit

